import Mathlib

set_option maxRecDepth 100000

/-!
Shallow embedding of `src/pid/limits.rs` from procinfo-rs: the parser for
`/proc/[pid]/limits` tables.  Byte buffers are modelled as `List Char`
(the input is ASCII text); the nom combinator results are modelled by
`PResult`, whose fourth constructor `panicked` records that the Rust code
called `panic!` (aborting the process) while computing the mapped value.
-/

namespace Procinfo

/-- Result of a nom parser over the remaining input: `done rest v` is
`IResult::Done`, `error` is `IResult::Error`, `incomplete` is
`IResult::Incomplete`, and `panicked msg` records a Rust `panic!` raised
while computing a mapped value (process abort, propagated outward). -/

inductive PResult (α : Type) where
  | done (rest : List Char) (val : α)
  | error
  | incomplete
  | panicked (msg : String)
deriving DecidableEq, Repr

/-- Sequencing of nom parsers, as in `do_parse!`: failures, incompleteness
and panics propagate. -/

def PResult.bind {α β : Type} : PResult α → (List Char → α → PResult β) → PResult β
  | .done r v, f => f r v
  | .error, _ => .error
  | .incomplete, _ => .incomplete
  | .panicked m, _ => .panicked m

/-- Value map on a parse result, as in nom's `map!` with a pure function. -/

def PResult.mapVal {α β : Type} : PResult α → (α → β) → PResult β
  | .done r v, f => .done r (f v)
  | .error, _ => .error
  | .incomplete, _ => .incomplete
  | .panicked m, _ => .panicked m

/-- Value map where the mapped function may panic (modelled as `Except.error`),
as in nom's `map!` applied to a panicking Rust function. -/

def PResult.mapExcept {α β : Type} : PResult α → (α → Except String β) → PResult β
  | .done r v, f =>
    match f v with
    | .ok b => .done r b
    | .error m => .panicked m
  | .error, _ => .error
  | .incomplete, _ => .incomplete
  | .panicked m, _ => .panicked m

/-- nom's `is_space`: a space or a tab. -/

def isSpace (c : Char) : Bool := c = ' ' || c = '\t'

/-- Longest prefix of the input satisfying `p`, together with the rest. -/

def span (p : Char → Bool) : List Char → List Char × List Char
  | [] => ([], [])
  | c :: cs =>
    if p c then
      let s := span p cs
      (c :: s.1, s.2)
    else ([], c :: cs)

/-- nom's `take_while!`: always succeeds, consuming the longest run of
characters satisfying `p` (possibly the whole input). -/

def takeWhile (p : Char → Bool) (input : List Char) : PResult (List Char) :=
  .done (span p input).2 (span p input).1

/-- nom 1.x `tag!`: `Incomplete` whenever the input is shorter than the tag,
otherwise a prefix comparison. -/

def tag (lit : List Char) (input : List Char) : PResult Unit :=
  if input.length < lit.length then .incomplete
  else if lit.isPrefixOf input then .done (input.drop lit.length) ()
  else .error

/-- nom 1.x `take_until!`: stop (without consuming) at the first occurrence of
`needle`; `Incomplete` if it never occurs. -/

def takeUntil (needle : List Char) : List Char → PResult (List Char)
  | [] => if needle.isPrefixOf ([] : List Char) then .done [] [] else .incomplete
  | c :: cs =>
    if needle.isPrefixOf (c :: cs) then .done (c :: cs) []
    else
      match takeUntil needle cs with
      | .done r t => .done r (c :: t)
      | .error => .error
      | .incomplete => .incomplete
      | .panicked m => .panicked m

/-- nom 1.x `take_until_and_consume!`: like `takeUntil` but also consumes the
needle itself. -/

def takeUntilAndConsume (needle : List Char) (input : List Char) : PResult (List Char) :=
  (takeUntil needle input).bind fun r t =>
    (tag needle r).mapVal fun _ => t
-- the needle is a prefix of `r` whenever `takeUntil` succeeds, so the inner
-- `tag` always succeeds there

/-- Continuation of `lineEnding` after a leading CR: a LF must follow
(`Incomplete` on a lone CR at the end of input, per nom 1.x `tag!`). -/

def lineEndingCr : List Char → PResult Unit
  | [] => .incomplete
  | c2 :: cs2 => if c2 = '\n' then .done cs2 () else .error

/-- nom's `line_ending`, accepting LF or CRLF:
`alt!(tag!("\n") | tag!("\r\n"))` with nom 1.x `tag!` semantics. -/

def lineEnding : List Char → PResult Unit
  | [] => .incomplete
  | c :: cs =>
    if c = '\n' then .done cs ()
    else if c = '\r' then lineEndingCr cs
    else .error

/-- Decimal value of a digit run (most significant first). -/

def digitsToNat (ds : List Char) : Nat :=
  ds.foldl (fun a c => a * 10 + (c.toNat - 48)) 0

/-- Consume one or more decimal digits and return their value; fail when the
input does not start with a digit. -/

def parseDigits (input : List Char) : PResult Nat :=
  match span Char.isDigit input with
  | ([], _) => .error
  | (ds, r) => .done r (digitsToNat ds)

/-- Modelled from the spec: `parse_isize` from the repository's `parsers`
module, which is not present under `src/` (§4.1): consumes an optional
leading minus sign followed by one or more decimal digits, producing a
signed integer; fails if no digit is present. -/

def parse_isize (input : List Char) : PResult Int :=
  match input with
  | '-' :: rest => (parseDigits rest).mapVal (fun n => -(n : Int))
  | _ => (parseDigits input).mapVal (fun n => (n : Int))

/-- A character that can be part of a word: not a space, tab, CR or LF. -/

def wordChar (c : Char) : Bool :=
  !(c = ' ' || c = '\t' || c = '\r' || c = '\n')

/-- Modelled from the spec: `parse_word` from the repository's `parsers`
module, which is not present under `src/` (§4.1): consumes a maximal run of
non-whitespace characters and produces the decoded text; fails on a
zero-length run. -/

def parse_word (input : List Char) : PResult String :=
  match span wordChar input with
  | ([], _) => .error
  | (w, r) => .done r (String.mk w)

/-- nom 1.x `opt!`: success becomes `some`, error becomes `none` without
consuming, incompleteness propagates. -/

def opt {α : Type} (p : List Char → PResult α) (input : List Char) : PResult (Option α) :=
  match p input with
  | .done r v => .done r (some v)
  | .error => .done input none
  | .incomplete => .incomplete
  | .panicked m => .panicked m

/-- A constant to represent the "unlimited" value (`LIMITS_INFINITY`). -/

def LIMITS_INFINITY : Int := -1

/-- The literal text matched by `tag_s!("unlimited")`. -/

def unlimitedLit : List Char := "unlimited".data

/-- The double-space column separator searched for by `take_until!("  ")`. -/

def doubleSpace : List Char := "  ".data

/-- The newline needle of `take_until_and_consume!(b"\n")`. -/

def newlineLit : List Char := "\n".data

/-- `parse_limit_value`: `alt!(map!(tag_s!("unlimited"), |_| LIMITS_INFINITY)
| parse_isize)`; nom's `alt!` moves to the next branch only on `Error` and
propagates `Incomplete`. -/

def parse_limit_value (input : List Char) : PResult Int :=
  match tag unlimitedLit input with
  | .done r _ => .done r LIMITS_INFINITY
  | .error => parse_isize input
  | .incomplete => .incomplete
  | .panicked m => .panicked m

/-- The unit enumeration (`LimitUnit`). -/

inductive LimitUnit where
  | Seconds
  | Bytes
  | Processes
  | Files
  | Locks
  | Other (s : String)
  | Signals
  | Us
deriving DecidableEq, Repr

/-- `unit_types`: classify an optional raw unit word into `Option LimitUnit`;
unrecognized words become `Other` carrying the original text, an absent word
stays absent. -/

def unit_types : Option String → Option LimitUnit
  | none => none
  | some u =>
    if u = "bytes" then some .Bytes
    else if u = "files" then some .Files
    else if u = "locks" then some .Locks
    else if u = "processes" then some .Processes
    else if u = "seconds" then some .Seconds
    else if u = "signals" then some .Signals
    else if u = "us" then some .Us
    else some (.Other u)

/-- `parse_limit_line`: one table row, in the exact `do_parse!` order of the
source: `take_until!("  ")`, `take_while!(is_space)`, soft value,
`take_while!(is_space)`, hard value, `take_while!(is_space)`,
`map!(opt!(parse_word), unit_types)`, `take_while!(is_space)`,
`line_ending`. -/

def parse_limit_line (input : List Char) : PResult (Int × Int × Option LimitUnit) :=
  (takeUntil doubleSpace input).bind fun r0 _ =>
  (takeWhile isSpace r0).bind fun r1 _ =>
  (parse_limit_value r1).bind fun r2 soft =>
  (takeWhile isSpace r2).bind fun r3 _ =>
  (parse_limit_value r3).bind fun r4 hard =>
  (takeWhile isSpace r4).bind fun r5 _ =>
  (opt parse_word r5).bind fun r6 w =>
  (takeWhile isSpace r6).bind fun r7 _ =>
  (lineEnding r7).bind fun r8 _ =>
  .done r8 (soft, hard, unit_types w)

/-- The `time::Duration` values produced by `Duration::seconds` and
`Duration::microseconds`, modelled by their total length in nanoseconds
(the crate normalizes, and its equality compares total length). -/

structure Duration where
  nanos : Int
deriving DecidableEq, Repr

/-- `Duration::seconds`. -/

def Duration.seconds (s : Int) : Duration := ⟨s * 1000000000⟩

/-- `Duration::microseconds`. -/

def Duration.microseconds (us : Int) : Duration := ⟨us * 1000⟩

/-- A struct to hold limits and unit of the limit type (`Limit`). -/

structure Limit where
  soft_limit : Int
  hard_limit : Int
  unit : Option LimitUnit
deriving DecidableEq, Repr

/-- The duration-valued variant (`LimitDuration`). -/

structure LimitDuration where
  soft_limit : Duration
  hard_limit : Duration
  unit : Option LimitUnit
deriving DecidableEq, Repr

/-- Process limits information (`Limits`), with the sixteen fields in the
source's order; `max_cpu_time` and `max_realtime_timeout` are the only two
duration-typed fields. -/

structure Limits where
  max_cpu_time : LimitDuration
  max_file_size : Limit
  max_data_size : Limit
  max_stack_size : Limit
  max_core_file_size : Limit
  max_resident_set : Limit
  max_processes : Limit
  max_open_files : Limit
  max_locked_memory : Limit
  max_address_space : Limit
  max_file_locks : Limit
  max_pending_signals : Limit
  max_msgqueue_size : Limit
  max_nice_priority : Limit
  max_realtime_priority : Limit
  max_realtime_timeout : LimitDuration
deriving DecidableEq, Repr

/-- Rust `{:?}` rendering of a `LimitUnit`, used in the panic message of
`to_limit_duration`. -/

def LimitUnit.debugFmt : LimitUnit → String
  | .Seconds => "Seconds"
  | .Bytes => "Bytes"
  | .Processes => "Processes"
  | .Files => "Files"
  | .Locks => "Locks"
  | .Other s => "Other(\"" ++ s ++ "\")"
  | .Signals => "Signals"
  | .Us => "Us"

/-- Rust `{:?}` rendering of an `Option<LimitUnit>`. -/

def debugFmtOpt : Option LimitUnit → String
  | none => "None"
  | some u => "Some(" ++ u.debugFmt ++ ")"

/-- `to_limit`: wrap a parsed row triple into a `Limit` unchanged. -/

def to_limit : Int × Int × Option LimitUnit → Limit
  | (soft_limit, hard_limit, unit) =>
    { soft_limit := soft_limit, hard_limit := hard_limit, unit := unit }

/-- `to_limit_duration`: convert a row triple into a `LimitDuration` when the
unit is `Seconds` or `Us`; any other unit, and an absent unit, make the Rust
source `panic!` (modelled as `Except.error` carrying the panic message). -/

def to_limit_duration : Int × Int × Option LimitUnit → Except String LimitDuration
  | (soft_limit, hard_limit, unit) =>
    match unit with
    | some .Seconds =>
      .ok { soft_limit := Duration.seconds soft_limit
            hard_limit := Duration.seconds hard_limit
            unit := unit }
    | some .Us =>
      .ok { soft_limit := Duration.microseconds soft_limit
            hard_limit := Duration.microseconds hard_limit
            unit := unit }
    | some _ =>
      .error ("LimitUnit " ++ debugFmtOpt unit ++ " is not of type Seconds or Us")
    | none => .error "Limit unit is None"

/-- One plain-limit row step of `parse_limits`:
`map!(parse_limit_line, to_limit)`. -/

def parse_row_limit (input : List Char) : PResult Limit :=
  (parse_limit_line input).mapVal to_limit

/-- One duration row step of `parse_limits`:
`map!(parse_limit_line, to_limit_duration)`; the mapped function can panic. -/

def parse_row_duration (input : List Char) : PResult LimitDuration :=
  (parse_limit_line input).mapExcept to_limit_duration

/-- `parse_limits`: skip through the first newline (the header line), then
parse the sixteen rows in the source's fixed order, converting the first and
the last row through `to_limit_duration` and the rest through `to_limit`. -/

def parse_limits (input : List Char) : PResult Limits :=
  (takeUntilAndConsume newlineLit input).bind fun r0 _ =>
  (parse_row_duration r0).bind fun r1 max_cpu_time =>
  (parse_row_limit r1).bind fun r2 max_file_size =>
  (parse_row_limit r2).bind fun r3 max_data_size =>
  (parse_row_limit r3).bind fun r4 max_stack_size =>
  (parse_row_limit r4).bind fun r5 max_core_file_size =>
  (parse_row_limit r5).bind fun r6 max_resident_set =>
  (parse_row_limit r6).bind fun r7 max_processes =>
  (parse_row_limit r7).bind fun r8 max_open_files =>
  (parse_row_limit r8).bind fun r9 max_locked_memory =>
  (parse_row_limit r9).bind fun r10 max_address_space =>
  (parse_row_limit r10).bind fun r11 max_file_locks =>
  (parse_row_limit r11).bind fun r12 max_pending_signals =>
  (parse_row_limit r12).bind fun r13 max_msgqueue_size =>
  (parse_row_limit r13).bind fun r14 max_nice_priority =>
  (parse_row_limit r14).bind fun r15 max_realtime_priority =>
  (parse_row_duration r15).bind fun r16 max_realtime_timeout =>
  .done r16
    { max_cpu_time := max_cpu_time
      max_file_size := max_file_size
      max_data_size := max_data_size
      max_stack_size := max_stack_size
      max_core_file_size := max_core_file_size
      max_resident_set := max_resident_set
      max_processes := max_processes
      max_open_files := max_open_files
      max_locked_memory := max_locked_memory
      max_address_space := max_address_space
      max_file_locks := max_file_locks
      max_pending_signals := max_pending_signals
      max_msgqueue_size := max_msgqueue_size
      max_nice_priority := max_nice_priority
      max_realtime_priority := max_realtime_priority
      max_realtime_timeout := max_realtime_timeout }

/-- Outcome of the external entry points: a record, an ordinary error, or a
process abort via `panic!`. -/

inductive IoOutcome (α : Type) where
  | ok (v : α)
  | err
  | panicked (msg : String)
deriving DecidableEq, Repr

/-- Modelled from the spec: `map_result` from the repository's `parsers`
module, which is not present under `src/` (§4.6): `Done` becomes success,
both `Error` and `Incomplete` ("need more input") become a parse error; a
panic raised inside the parse unwinds through it unchanged. -/

def map_result {α : Type} : PResult α → IoOutcome α
  | .done _ v => .ok v
  | .error => .err
  | .incomplete => .err
  | .panicked m => .panicked m

/-- The pure core of `limits_file`: parse the buffer and adapt the result,
as in `map_result(parse_limits(..))`. -/

def limits_from_buffer (buf : List Char) : IoOutcome Limits :=
  map_result (parse_limits buf)

/-! Concrete table fixtures, in the standard kernel layout (one header line
followed by column-padded rows, each terminated by a line feed). -/

/-- Header line of the canonical sample table. -/

def hdrLine : String :=
  "Limit                     Soft Limit           Hard Limit           Units         \n"

/-- Canonical cpu-time row (unit `seconds`). -/

def rowCpuSeconds : String :=
  "Max cpu time              unlimited            unlimited            seconds       \n"

/-- Cpu-time row carrying the non-time unit `bytes`. -/

def rowCpuBytes : String :=
  "Max cpu time              unlimited            unlimited            bytes         \n"

/-- Cpu-time row with no unit word at all. -/

def rowCpuNoUnit : String :=
  "Max cpu time              0                    0                                  \n"

/-- Canonical file-size row. -/

def rowFileSize : String :=
  "Max file size             unlimited            unlimited            bytes         \n"

/-- Canonical data-size row. -/

def rowDataSize : String :=
  "Max data size             unlimited            unlimited            bytes         \n"

/-- Canonical stack-size row. -/

def rowStackSize : String :=
  "Max stack size            8388608              unlimited            bytes         \n"

/-- Stack-size row carrying the mismatched unit `seconds`. -/

def rowStackSizeSeconds : String :=
  "Max stack size            8388608              unlimited            seconds       \n"

/-- Canonical core-file-size row. -/

def rowCoreFileSize : String :=
  "Max core file size        unlimited            unlimited            bytes         \n"

/-- Canonical resident-set row. -/

def rowResidentSet : String :=
  "Max resident set          unlimited            unlimited            bytes         \n"

/-- Canonical processes row. -/

def rowProcesses : String :=
  "Max processes             63632                63632                processes     \n"

/-- Canonical open-files row. -/

def rowOpenFiles : String :=
  "Max open files            1024                 4096                 files         \n"

/-- Open-files row carrying the mismatched unit `bytes`. -/

def rowOpenFilesBytes : String :=
  "Max open files            1024                 4096                 bytes         \n"

/-- Canonical locked-memory row. -/

def rowLockedMemory : String :=
  "Max locked memory         65536                65536                bytes         \n"

/-- Canonical address-space row. -/

def rowAddressSpace : String :=
  "Max address space         unlimited            unlimited            bytes         \n"

/-- Canonical file-locks row. -/

def rowFileLocks : String :=
  "Max file locks            unlimited            unlimited            locks         \n"

/-- Canonical pending-signals row. -/

def rowPendingSignals : String :=
  "Max pending signals       63632                63632                signals       \n"

/-- Canonical msgqueue-size row. -/

def rowMsgqueueSize : String :=
  "Max msgqueue size         819200               819200               bytes         \n"

/-- Canonical nice-priority row (no unit). -/

def rowNicePriority : String :=
  "Max nice priority         0                    0                                  \n"

/-- Canonical realtime-priority row (no unit). -/

def rowRealtimePriority : String :=
  "Max realtime priority     0                    0                                  \n"

/-- Canonical realtime-timeout row (unit `us`). -/

def rowRealtimeTimeout : String :=
  "Max realtime timeout      unlimited            unlimited            us            \n"

/-- The fourteen rows that follow the cpu-time row in the canonical table. -/

def tailRows : String :=
  rowFileSize ++ rowDataSize ++ rowStackSize ++ rowCoreFileSize ++
  rowResidentSet ++ rowProcesses ++ rowOpenFiles ++ rowLockedMemory ++
  rowAddressSpace ++ rowFileLocks ++ rowPendingSignals ++ rowMsgqueueSize ++
  rowNicePriority ++ rowRealtimePriority ++ rowRealtimeTimeout

/-- The canonical sample table matching the standard kernel layout. -/

def canonicalSample : List Char :=
  (hdrLine ++ rowCpuSeconds ++ tailRows).data

/-- The canonical table with the cpu-time row's unit replaced by `bytes`. -/

def badUnitSample : List Char :=
  (hdrLine ++ rowCpuBytes ++ tailRows).data

/-- The canonical table with the cpu-time row's unit absent. -/

def noUnitSample : List Char :=
  (hdrLine ++ rowCpuNoUnit ++ tailRows).data

/-- A truncated table containing only 10 of the 16 rows. -/

def truncatedSample : List Char :=
  (hdrLine ++ rowCpuSeconds ++ rowFileSize ++ rowDataSize ++ rowStackSize ++
   rowCoreFileSize ++ rowResidentSet ++ rowProcesses ++ rowOpenFiles ++
   rowLockedMemory ++ rowAddressSpace).data

/-- The canonical table with mismatched units on two plain rows: the
stack-size row says `seconds` and the open-files row says `bytes`. -/

def mixedUnitSample : List Char :=
  (hdrLine ++ rowCpuSeconds ++ rowFileSize ++ rowDataSize ++ rowStackSizeSeconds ++
   rowCoreFileSize ++ rowResidentSet ++ rowProcesses ++ rowOpenFilesBytes ++
   rowLockedMemory ++ rowAddressSpace ++ rowFileLocks ++ rowPendingSignals ++
   rowMsgqueueSize ++ rowNicePriority ++ rowRealtimePriority ++ rowRealtimeTimeout).data

/-- The record produced by parsing the canonical sample. -/

def canonicalLimits : Limits where
  max_cpu_time := ⟨Duration.seconds (-1), Duration.seconds (-1), some .Seconds⟩
  max_file_size := ⟨-1, -1, some .Bytes⟩
  max_data_size := ⟨-1, -1, some .Bytes⟩
  max_stack_size := ⟨8388608, -1, some .Bytes⟩
  max_core_file_size := ⟨-1, -1, some .Bytes⟩
  max_resident_set := ⟨-1, -1, some .Bytes⟩
  max_processes := ⟨63632, 63632, some .Processes⟩
  max_open_files := ⟨1024, 4096, some .Files⟩
  max_locked_memory := ⟨65536, 65536, some .Bytes⟩
  max_address_space := ⟨-1, -1, some .Bytes⟩
  max_file_locks := ⟨-1, -1, some .Locks⟩
  max_pending_signals := ⟨63632, 63632, some .Signals⟩
  max_msgqueue_size := ⟨819200, 819200, some .Bytes⟩
  max_nice_priority := ⟨0, 0, none⟩
  max_realtime_priority := ⟨0, 0, none⟩
  max_realtime_timeout := ⟨Duration.microseconds (-1), Duration.microseconds (-1), some .Us⟩

/-- The record produced by parsing `mixedUnitSample`: identical to the
canonical record except that the two mismatched units are stored verbatim. -/

def mixedUnitLimits : Limits :=
  { canonicalLimits with
      max_stack_size := ⟨8388608, -1, some .Seconds⟩
      max_open_files := ⟨1024, 4096, some .Bytes⟩ }

/-! Auxiliary lemmas about the byte-level combinators. -/

/-- A list is a `isPrefixOf`-prefix of itself followed by anything. -/

inductive RowVal where
  | plain (l : Limit)
  | dur (d : LimitDuration)
deriving DecidableEq, Repr

def parseRow (isDur : Bool) (input : List Char) : PResult RowVal :=
  if isDur then
    (parse_limit_line input).mapExcept (fun t => (to_limit_duration t).map RowVal.dur)
  else (parse_limit_line input).mapVal (fun t => RowVal.plain (to_limit t))

def parseRowsSpec : List Bool → List Char → PResult (List RowVal)
  | [], input => .done input []
  | b :: bs, input =>
    (parseRow b input).bind fun r v =>
      (parseRowsSpec bs r).mapVal (fun vs => v :: vs)

def durFlags : List Bool :=
  [true, false, false, false, false, false, false, false,
   false, false, false, false, false, false, false, true]

def assembleLimits : List RowVal → Option Limits
  | [.dur cpu, .plain fileSize, .plain dataSize, .plain stackSize, .plain coreFileSize,
     .plain residentSet, .plain processes, .plain openFiles, .plain lockedMemory,
     .plain addressSpace, .plain fileLocks, .plain pendingSignals, .plain msgqueueSize,
     .plain nicePriority, .plain realtimePriority, .dur realtimeTimeout] =>
    some { max_cpu_time := cpu
           max_file_size := fileSize
           max_data_size := dataSize
           max_stack_size := stackSize
           max_core_file_size := coreFileSize
           max_resident_set := residentSet
           max_processes := processes
           max_open_files := openFiles
           max_locked_memory := lockedMemory
           max_address_space := addressSpace
           max_file_locks := fileLocks
           max_pending_signals := pendingSignals
           max_msgqueue_size := msgqueueSize
           max_nice_priority := nicePriority
           max_realtime_priority := realtimePriority
           max_realtime_timeout := realtimeTimeout }
  | _ => none

def parse_limits_spec (input : List Char) : PResult Limits :=
  (takeUntilAndConsume newlineLit input).bind fun r0 _ =>
  (parseRowsSpec durFlags r0).bind fun r rows =>
    match assembleLimits rows with
    | some l => .done r l
    | none => .error

def digitChar (n : Nat) : Char :=
  if n = 0 then '0' else if n = 1 then '1' else if n = 2 then '2'
  else if n = 3 then '3' else if n = 4 then '4' else if n = 5 then '5'
  else if n = 6 then '6' else if n = 7 then '7' else if n = 8 then '8' else '9'

def natDigits (n : Nat) : List Char :=
  if h : n < 10 then [digitChar n]
  else natDigits (n / 10) ++ [digitChar (n % 10)]
decreasing_by exact Nat.div_lt_self (by omega) (by omega)

def rowPadding : List Char := List.replicate 10 ' '

structure RowSpec where
  label : List Char
  soft : Option Nat
  hard : Option Nat
  unit : List Char

def cellStr : Option Nat → List Char
  | none => unlimitedLit
  | some n => natDigits n

def cellVal : Option Nat → Int
  | none => -1
  | some n => (n : Int)

def unitPart (u : List Char) : List Char :=
  if u = [] then [] else doubleSpace ++ u

def mkRow (rs : RowSpec) : List Char :=
  rs.label ++ doubleSpace ++ cellStr rs.soft ++ doubleSpace ++ cellStr rs.hard ++
    unitPart rs.unit ++ rowPadding ++ ['\n']

def ValidRowSpec (rs : RowSpec) : Prop :=
  ' ' ∉ rs.label ∧ ∀ c ∈ rs.unit, wordChar c = true

def limitOf (rs : RowSpec) : Limit :=
  ⟨cellVal rs.soft, cellVal rs.hard,
    unit_types (if rs.unit = [] then none else some (String.mk rs.unit))⟩

/-- The canonical table with its second row (file size) malformed: its soft
column is not a number and not the sentinel. -/
def badRow2Sample : List Char :=
  (hdrLine ++ rowCpuSeconds ++
   "Max file size             garbage              garbage              bytes         \n" ++
   rowDataSize ++ rowStackSize ++ rowCoreFileSize ++ rowResidentSet ++ rowProcesses ++
   rowOpenFiles ++ rowLockedMemory ++ rowAddressSpace ++ rowFileLocks ++
   rowPendingSignals ++ rowMsgqueueSize ++ rowNicePriority ++ rowRealtimePriority ++
   rowRealtimeTimeout).data

/-- Generated cpu-time row used as a concrete instance of the table
generator. -/
def wr0 : RowSpec := ⟨"Wcpu".data, none, none, "seconds".data⟩

/-- Generated plain row used as a concrete instance of the table generator. -/
def wrB : RowSpec := ⟨"Wrow".data, some 1, some 2, "bytes".data⟩

/-- Generated realtime-timeout row used as a concrete instance of the table
generator. -/
def wr15 : RowSpec := ⟨"Wrt".data, some 3, none, "us".data⟩

/-! Lemmas and claim theorems. -/

theorem isPrefixOf_append_left (l r : List Char) : l.isPrefixOf (l ++ r) = true := by
  induction l with
  | nil => simp [List.isPrefixOf]
  | cons c cs ih => simp [List.isPrefixOf, ih]

/-- `tag` always consumes its literal off the front of the input. -/

theorem tag_self_append (lit rest : List Char) : tag lit (lit ++ rest) = .done rest () := by
  unfold tag
  have h1 : ¬ (lit ++ rest).length < lit.length := by
    rw [List.length_append]; omega
  rw [if_neg h1, if_pos (isPrefixOf_append_left lit rest), List.drop_left]

/-- A `isPrefixOf`-prefix is no longer than the whole. -/

theorem isPrefixOf_length_le {a b : List Char} (h : a.isPrefixOf b = true) :
    a.length ≤ b.length := by
  induction a generalizing b with
  | nil => simp
  | cons x xs ih =>
    cases b with
    | nil => simp [List.isPrefixOf] at h
    | cons y ys =>
      simp only [List.isPrefixOf, Bool.and_eq_true] at h
      simpa using ih h.2

/-- Appending on the right preserves `isPrefixOf`. -/

theorem isPrefixOf_mono {a b : List Char} (ex : List Char) (h : a.isPrefixOf b = true) :
    a.isPrefixOf (b ++ ex) = true := by
  induction a generalizing b with
  | nil => simp [List.isPrefixOf]
  | cons x xs ih =>
    cases b with
    | nil => simp [List.isPrefixOf] at h
    | cons y ys =>
      simp only [List.isPrefixOf, Bool.and_eq_true] at h ⊢
      exact ⟨h.1, ih h.2⟩

/-- When the candidate is at least as long as the pattern, appending on the
right cannot create a new prefix match. -/

theorem isPrefixOf_append_of_le_length {a b : List Char} (ex : List Char)
    (h : a.isPrefixOf b = false) (hl : a.length ≤ b.length) :
    a.isPrefixOf (b ++ ex) = false := by
  induction a generalizing b with
  | nil => simp [List.isPrefixOf] at h
  | cons x xs ih =>
    cases b with
    | nil => simp at hl
    | cons y ys =>
      simp only [List.isPrefixOf, Bool.and_eq_false_iff] at h ⊢
      rcases h with h | h
      · exact Or.inl h
      · simp only [List.length_cons, Nat.add_le_add_iff_right] at hl
        exact Or.inr (ih h hl)

/-- A list decomposes as any of its `isPrefixOf`-prefixes plus the drop. -/

theorem eq_append_drop_of_isPrefixOf {a b : List Char} (h : a.isPrefixOf b = true) :
    b = a ++ b.drop a.length := by
  induction a generalizing b with
  | nil => simp
  | cons x xs ih =>
    cases b with
    | nil => simp [List.isPrefixOf] at h
    | cons y ys =>
      simp only [List.isPrefixOf, Bool.and_eq_true, beq_iff_eq] at h
      obtain ⟨h1, h2⟩ := h
      subst h1
      simp only [List.length_cons, List.drop_succ_cons, List.cons_append, List.cons.injEq,
        true_and]
      exact ih h2

/-- Unfolding equation of `span` on a character satisfying the predicate. -/

theorem span_cons_true {p : Char → Bool} {c : Char} (cs : List Char) (h : p c = true) :
    span p (c :: cs) = (c :: (span p cs).1, (span p cs).2) := by
  simp [span, h]

/-- Unfolding equation of `span` on a character failing the predicate. -/

theorem span_cons_false {p : Char → Bool} {c : Char} (cs : List Char) (h : p c = false) :
    span p (c :: cs) = ([], c :: cs) := by
  simp [span, h]

/-- `span` splits its input into the taken part and the rest. -/

theorem span_eq_append (p : Char → Bool) (input : List Char) :
    input = (span p input).1 ++ (span p input).2 := by
  induction input with
  | nil => rfl
  | cons c cs ih =>
    by_cases h : p c
    · rw [span_cons_true cs h]
      exact congrArg (c :: ·) ih
    · rw [span_cons_false cs (by simpa using h)]
      rfl

/-- The first character left behind by `span` fails the predicate. -/

theorem span_snd_head_false {p : Char → Bool} {input r : List Char} {c : Char}
    (h : (span p input).2 = c :: r) : p c = false := by
  induction input with
  | nil => simp [span] at h
  | cons x xs ih =>
    by_cases hx : p x
    · rw [span_cons_true xs hx] at h
      exact ih h
    · rw [span_cons_false xs (by simpa using hx)] at h
      simp only at h
      obtain ⟨h1, _⟩ := List.cons.injEq .. ▸ h
      rw [h1] at hx
      simpa using hx

/-- Appending after the input does not disturb a `span` that stopped before
the end of the input. -/

theorem span_append_snd_ne {p : Char → Bool} {input : List Char} (ex : List Char)
    (h : (span p input).2 ≠ []) :
    span p (input ++ ex) = ((span p input).1, (span p input).2 ++ ex) := by
  induction input with
  | nil => simp [span] at h
  | cons x xs ih =>
    by_cases hx : p x
    · rw [span_cons_true xs hx] at h ⊢
      rw [List.cons_append, span_cons_true (xs ++ ex) hx, ih h]
    · rw [span_cons_false xs (by simpa using hx)]
      rw [List.cons_append, span_cons_false (xs ++ ex) (by simpa using hx)]

/-- Computing `span` on a run of satisfying characters followed by a failing
one. -/

theorem span_exact {p : Char → Bool} {t : List Char} {c : Char} (rest : List Char)
    (ht : ∀ x ∈ t, p x = true) (hc : p c = false) :
    span p (t ++ c :: rest) = (t, c :: rest) := by
  induction t with
  | nil => exact span_cons_false rest hc
  | cons x xs ih =>
    have hx : p x = true := ht x (by simp)
    rw [List.cons_append, span_cons_true _ hx,
      ih (fun y hy => ht y (by simp [hy]))]

/-- Unfolding equation of `takeUntil` on a nonempty input. -/

theorem takeUntil_cons (n : List Char) (c : Char) (cs : List Char) :
    takeUntil n (c :: cs) =
      if n.isPrefixOf (c :: cs) then .done (c :: cs) []
      else
        match takeUntil n cs with
        | .done r t => .done r (c :: t)
        | .error => .error
        | .incomplete => .incomplete
        | .panicked m => .panicked m := rfl

/-- A successful `takeUntil` splits the input, and the needle heads the
rest. -/

theorem takeUntil_done_eq {n input r t : List Char}
    (h : takeUntil n input = .done r t) :
    input = t ++ r ∧ n.isPrefixOf r = true := by
  induction input generalizing r t with
  | nil =>
    unfold takeUntil at h
    by_cases hp : n.isPrefixOf ([] : List Char)
    · rw [if_pos hp] at h
      cases h
      exact ⟨rfl, hp⟩
    · rw [if_neg hp] at h
      cases h
  | cons c cs ih =>
    rw [takeUntil_cons] at h
    by_cases hp : n.isPrefixOf (c :: cs)
    · rw [if_pos hp] at h
      cases h
      exact ⟨rfl, hp⟩
    · rw [if_neg hp] at h
      cases heq : takeUntil n cs with
      | done r2 t2 =>
        rw [heq] at h
        cases h
        obtain ⟨h1, h2⟩ := ih heq
        exact ⟨by rw [List.cons_append, ← h1], h2⟩
      | error => rw [heq] at h; cases h
      | incomplete => rw [heq] at h; cases h
      | panicked m => rw [heq] at h; cases h

/-- A successful `takeUntil` is unaffected by bytes appended after the
input: the first needle occurrence cannot move. -/

theorem takeUntil_append {n input r t : List Char} (ex : List Char)
    (h : takeUntil n input = .done r t) :
    takeUntil n (input ++ ex) = .done (r ++ ex) t := by
  induction input generalizing r t with
  | nil =>
    unfold takeUntil at h
    by_cases hp : n.isPrefixOf ([] : List Char)
    · rw [if_pos hp] at h
      cases h
      cases ex with
      | nil =>
        rw [List.append_nil]
        unfold takeUntil
        rw [if_pos hp]
      | cons e es =>
        have : n = [] := List.eq_nil_of_length_eq_zero
          (Nat.le_zero.mp (isPrefixOf_length_le hp))
        subst this
        rw [List.nil_append, takeUntil_cons, if_pos (by simp [List.isPrefixOf])]
    · rw [if_neg hp] at h
      cases h
  | cons c cs ih =>
    rw [takeUntil_cons] at h
    by_cases hp : n.isPrefixOf (c :: cs)
    · rw [if_pos hp] at h
      cases h
      have hm : (n.isPrefixOf (c :: (cs ++ ex))) = true := by
        simpa using isPrefixOf_mono ex hp
      rw [List.cons_append, takeUntil_cons, if_pos hm]
    · rw [if_neg hp] at h
      cases heq : takeUntil n cs with
      | done r2 t2 =>
        rw [heq] at h
        cases h
        obtain ⟨h1, h2⟩ := takeUntil_done_eq heq
        have hlen : n.length ≤ (c :: cs).length := by
          have := isPrefixOf_length_le h2
          simp [h1]
          omega
        have hp2 : n.isPrefixOf (c :: cs) = false := Bool.eq_false_iff.mpr hp
        have hne : n.isPrefixOf (c :: (cs ++ ex)) = false := by
          have := isPrefixOf_append_of_le_length ex hp2 hlen
          simpa using this
        rw [List.cons_append, takeUntil_cons,
          if_neg (by rw [hne]; simp), ih heq]
      | error => rw [heq] at h; cases h
      | incomplete => rw [heq] at h; cases h
      | panicked m => rw [heq] at h; cases h

/-- `takeUntil` stops exactly at the boundary when the needle's first
character does not occur in the skipped-over text. -/

theorem takeUntil_head_notin {n0 : Char} {ntail label : List Char} (rest : List Char)
    (h : n0 ∉ label) :
    takeUntil (n0 :: ntail) (label ++ (n0 :: ntail) ++ rest) =
      .done ((n0 :: ntail) ++ rest) label := by
  induction label with
  | nil =>
    have hm : (n0 :: ntail).isPrefixOf (n0 :: (ntail ++ rest)) = true := by
      simpa using isPrefixOf_append_left (n0 :: ntail) rest
    rw [List.nil_append, List.cons_append, takeUntil_cons, if_pos hm]
  | cons c cs ih =>
    have hc : c ≠ n0 := fun hcc => h (by simp [hcc])
    have hne : (n0 :: ntail).isPrefixOf (c :: (cs ++ (n0 :: ntail) ++ rest)) = false := by
      simp only [List.isPrefixOf, Bool.and_eq_false_iff]
      exact Or.inl (by simpa using fun hcc => hc hcc.symm)
    rw [List.cons_append, List.cons_append, takeUntil_cons,
      if_neg (by rw [hne]; simp)]
    rw [ih (fun hmem => h (by simp [hmem]))]

/-- A successful `tag` decomposes its input as literal plus rest. -/

theorem tag_done_eq {lit input r : List Char} {v : Unit}
    (h : tag lit input = .done r v) : input = lit ++ r := by
  unfold tag at h
  by_cases h1 : input.length < lit.length
  · rw [if_pos h1] at h; cases h
  · rw [if_neg h1] at h
    by_cases h2 : lit.isPrefixOf input
    · rw [if_pos h2] at h
      cases h
      exact eq_append_drop_of_isPrefixOf h2
    · rw [if_neg h2] at h; cases h

/-- A successful `tag` is unaffected by appended bytes. -/

theorem tag_append {lit input r : List Char} {v : Unit} (ex : List Char)
    (h : tag lit input = .done r v) :
    tag lit (input ++ ex) = .done (r ++ ex) v := by
  have heq := tag_done_eq h
  subst heq
  rw [List.append_assoc, tag_self_append]

/-- A failing `tag` keeps failing after appended bytes. -/

theorem tag_error_append {lit input : List Char} (ex : List Char)
    (h : tag lit input = .error) : tag lit (input ++ ex) = .error := by
  unfold tag at h ⊢
  by_cases h1 : input.length < lit.length
  · rw [if_pos h1] at h; cases h
  · rw [if_neg h1] at h
    by_cases h2 : lit.isPrefixOf input
    · rw [if_pos h2] at h; cases h
    · have hlen : ¬ (input ++ ex).length < lit.length := by
        rw [List.length_append]; omega
      have hp : lit.isPrefixOf (input ++ ex) = false :=
        isPrefixOf_append_of_le_length ex (Bool.eq_false_iff.mpr h2) (by omega)
      rw [if_neg hlen, if_neg (by rw [hp]; simp)]

/-- A successful `lineEnding` consumed exactly a LF or a CRLF. -/

theorem lineEnding_done_eq {input r : List Char} {v : Unit}
    (h : lineEnding input = .done r v) :
    input = '\n' :: r ∨ input = '\r' :: '\n' :: r := by
  cases input with
  | nil => cases h
  | cons c cs =>
    by_cases hc : c = '\n'
    · subst hc
      simp only [lineEnding, if_pos rfl] at h
      cases h
      exact Or.inl rfl
    · by_cases hr : c = '\r'
      · subst hr
        simp only [lineEnding, if_neg (by decide : ¬ ('\r' : Char) = '\n'), if_pos rfl] at h
        cases cs with
        | nil => cases h
        | cons c2 cs2 =>
          by_cases h2 : c2 = '\n'
          · subst h2
            simp only [lineEndingCr, if_pos rfl] at h
            cases h
            exact Or.inr rfl
          · simp [lineEndingCr, h2] at h
      · simp [lineEnding, hc, hr] at h

/-- A successful `lineEnding` is unaffected by appended bytes. -/

theorem lineEnding_append {input r : List Char} {v : Unit} (ex : List Char)
    (h : lineEnding input = .done r v) :
    lineEnding (input ++ ex) = .done (r ++ ex) v := by
  rcases lineEnding_done_eq h with heq | heq <;> subst heq <;> rfl

/-- A successful `lineEnding` needs a nonempty input. -/

theorem lineEnding_done_ne_nil {input r : List Char} {v : Unit}
    (h : lineEnding input = .done r v) : input ≠ [] := by
  rcases lineEnding_done_eq h with heq | heq <;> subst heq <;> simp

/-! Inversion and append-stability lemmas for the parser stages. -/

theorem parseDigits_of_span_nil {input : List Char}
    (h : (span Char.isDigit input).1 = []) : parseDigits input = .error := by
  unfold parseDigits
  rw [show span Char.isDigit input = ([], (span Char.isDigit input).2) by rw [← h]]

theorem parseDigits_of_span_cons {input ds : List Char} {d : Char}
    (h : (span Char.isDigit input).1 = d :: ds) :
    parseDigits input = .done (span Char.isDigit input).2 (digitsToNat (d :: ds)) := by
  unfold parseDigits
  rw [show span Char.isDigit input = (d :: ds, (span Char.isDigit input).2) by rw [← h]]

theorem parseDigits_done_eq {input r : List Char} {v : Nat}
    (h : parseDigits input = .done r v) :
    input = (span Char.isDigit input).1 ++ r ∧ r = (span Char.isDigit input).2
      ∧ (span Char.isDigit input).1 ≠ [] := by
  cases hds : (span Char.isDigit input).1 with
  | nil => rw [parseDigits_of_span_nil hds] at h; cases h
  | cons d ds2 =>
    rw [parseDigits_of_span_cons hds] at h
    cases h
    refine ⟨?_, rfl, by simp [hds]⟩
    have hall := span_eq_append Char.isDigit input
    rw [hds] at hall
    exact hall

theorem parseDigits_append {input r : List Char} {v : Nat} (ex : List Char)
    (h : parseDigits input = .done r v) (hr : r ≠ []) :
    parseDigits (input ++ ex) = .done (r ++ ex) v := by
  obtain ⟨h1, h2, h3⟩ := parseDigits_done_eq h
  have hsp : span Char.isDigit (input ++ ex) =
      ((span Char.isDigit input).1, (span Char.isDigit input).2 ++ ex) :=
    span_append_snd_ne ex (by rw [← h2]; exact hr)
  cases hds : (span Char.isDigit input).1 with
  | nil => exact absurd hds h3
  | cons d ds2 =>
    have hds2 : (span Char.isDigit (input ++ ex)).1 = d :: ds2 := by
      rw [hsp]; exact hds
    rw [parseDigits_of_span_cons hds2, hsp]
    rw [parseDigits_of_span_cons hds] at h
    cases h
    rw [h2]

theorem parse_isize_dash (rest : List Char) :
    parse_isize ('-' :: rest) = (parseDigits rest).mapVal (fun n => -(n : Int)) := rfl

theorem parse_isize_not_dash {c : Char} (rest : List Char) (hc : c ≠ '-') :
    parse_isize (c :: rest) = (parseDigits (c :: rest)).mapVal (fun n => (n : Int)) := by
  unfold parse_isize
  split
  next heq => rw [List.cons.injEq] at heq; exact absurd heq.1 hc
  next => rfl

theorem bind_done_inv {α β : Type} {x : PResult α} {f : List Char → α → PResult β}
    {r : List Char} {v : β} (h : x.bind f = .done r v) :
    ∃ r2 a, x = .done r2 a ∧ f r2 a = .done r v := by
  cases x with
  | done r2 a => exact ⟨r2, a, rfl, h⟩
  | error => cases h
  | incomplete => cases h
  | panicked m => cases h

theorem mapVal_done_inv {α β : Type} {x : PResult α} {f : α → β}
    {r : List Char} {b : β} (h : x.mapVal f = .done r b) :
    ∃ a, x = .done r a ∧ b = f a := by
  cases x with
  | done r2 a =>
    simp only [PResult.mapVal] at h
    cases h
    exact ⟨a, rfl, rfl⟩
  | error => cases h
  | incomplete => cases h
  | panicked m => cases h

theorem takeWhile_done_inv {p : Char → Bool} {input r t : List Char}
    (h : takeWhile p input = .done r t) :
    r = (span p input).2 ∧ t = (span p input).1 ∧ input = t ++ r := by
  unfold takeWhile at h
  cases h
  exact ⟨rfl, rfl, span_eq_append p input⟩

theorem takeWhile_append {p : Char → Bool} {input r t : List Char} (ex : List Char)
    (h : takeWhile p input = .done r t) (hr : r ≠ []) :
    takeWhile p (input ++ ex) = .done (r ++ ex) t := by
  obtain ⟨h1, h2, _⟩ := takeWhile_done_inv h
  unfold takeWhile
  rw [span_append_snd_ne ex (by rw [← h1]; exact hr), ← h1, ← h2]

theorem parse_isize_append {input r : List Char} {v : Int} (ex : List Char)
    (h : parse_isize input = .done r v) (hr : r ≠ []) :
    parse_isize (input ++ ex) = .done (r ++ ex) v := by
  cases input with
  | nil =>
    rw [show parse_isize [] = .error from rfl] at h
    cases h
  | cons c cs =>
    by_cases hc : c = '-'
    · subst hc
      rw [parse_isize_dash] at h
      obtain ⟨n, hn, hv⟩ := mapVal_done_inv h
      rw [List.cons_append, parse_isize_dash, parseDigits_append ex hn hr, hv]
      rfl
    · rw [parse_isize_not_dash cs hc] at h
      obtain ⟨n, hn, hv⟩ := mapVal_done_inv h
      have hpd := parseDigits_append ex hn hr
      rw [List.cons_append] at hpd
      rw [List.cons_append, parse_isize_not_dash (cs ++ ex) hc, hpd, hv]
      rfl

theorem parse_word_of_span_nil {input : List Char}
    (h : (span wordChar input).1 = []) : parse_word input = .error := by
  unfold parse_word
  rw [show span wordChar input = ([], (span wordChar input).2) by rw [← h]]

theorem parse_word_of_span_cons {input ws : List Char} {w0 : Char}
    (h : (span wordChar input).1 = w0 :: ws) :
    parse_word input = .done (span wordChar input).2 (String.mk (w0 :: ws)) := by
  unfold parse_word
  rw [show span wordChar input = (w0 :: ws, (span wordChar input).2) by rw [← h]]

theorem parse_word_done_eq {input r : List Char} {w : String}
    (h : parse_word input = .done r w) :
    input = (span wordChar input).1 ++ r ∧ r = (span wordChar input).2
      ∧ (span wordChar input).1 ≠ [] := by
  cases hws : (span wordChar input).1 with
  | nil => rw [parse_word_of_span_nil hws] at h; cases h
  | cons w0 ws =>
    rw [parse_word_of_span_cons hws] at h
    cases h
    refine ⟨?_, rfl, by simp [hws]⟩
    have hall := span_eq_append wordChar input
    rw [hws] at hall
    exact hall

theorem parse_word_append {input r : List Char} {w : String} (ex : List Char)
    (h : parse_word input = .done r w) (hr : r ≠ []) :
    parse_word (input ++ ex) = .done (r ++ ex) w := by
  obtain ⟨h1, h2, h3⟩ := parse_word_done_eq h
  have hsp : span wordChar (input ++ ex) =
      ((span wordChar input).1, (span wordChar input).2 ++ ex) :=
    span_append_snd_ne ex (by rw [← h2]; exact hr)
  cases hws : (span wordChar input).1 with
  | nil => exact absurd hws h3
  | cons w0 ws =>
    have hws2 : (span wordChar (input ++ ex)).1 = w0 :: ws := by
      rw [hsp]; exact hws
    rw [parse_word_of_span_cons hws2, hsp]
    rw [parse_word_of_span_cons hws] at h
    cases h
    rw [h2]

theorem parse_word_error_append {input : List Char} (ex : List Char)
    (h : parse_word input = .error) (hne : input ≠ []) :
    parse_word (input ++ ex) = .error := by
  cases input with
  | nil => exact absurd rfl hne
  | cons c cs =>
    have hws : (span wordChar (c :: cs)).1 = [] := by
      by_contra hcon
      cases hx : (span wordChar (c :: cs)).1 with
      | nil => exact hcon hx
      | cons w0 ws => rw [parse_word_of_span_cons hx] at h; cases h
    have hwc : wordChar c = false := by
      by_cases hb : wordChar c
      · rw [span_cons_true cs hb] at hws; simp at hws
      · simpa using hb
    apply parse_word_of_span_nil
    rw [List.cons_append, span_cons_false (cs ++ ex) hwc]

theorem parse_isize_done_suffix {input r : List Char} {v : Int}
    (h : parse_isize input = .done r v) : ∃ t, input = t ++ r := by
  cases input with
  | nil => rw [show parse_isize [] = .error from rfl] at h; cases h
  | cons c cs =>
    by_cases hc : c = '-'
    · subst hc
      rw [parse_isize_dash] at h
      obtain ⟨n, hn, _⟩ := mapVal_done_inv h
      obtain ⟨h1, _, _⟩ := parseDigits_done_eq hn
      exact ⟨'-' :: (span Char.isDigit cs).1, by rw [List.cons_append, ← h1]⟩
    · rw [parse_isize_not_dash cs hc] at h
      obtain ⟨n, hn, _⟩ := mapVal_done_inv h
      obtain ⟨h1, _, _⟩ := parseDigits_done_eq hn
      exact ⟨(span Char.isDigit (c :: cs)).1, h1⟩

theorem parse_limit_value_append {input r : List Char} {v : Int} (ex : List Char)
    (h : parse_limit_value input = .done r v) (hr : r ≠ []) :
    parse_limit_value (input ++ ex) = .done (r ++ ex) v := by
  unfold parse_limit_value at h ⊢
  cases ht : tag unlimitedLit input with
  | done r2 u =>
    rw [ht] at h
    cases h
    rw [tag_append ex ht]
  | error =>
    rw [ht] at h
    rw [tag_error_append ex ht]
    exact parse_isize_append ex h hr
  | incomplete => rw [ht] at h; cases h
  | panicked m => rw [ht] at h; cases h

theorem parse_limit_value_done_suffix {input r : List Char} {v : Int}
    (h : parse_limit_value input = .done r v) : ∃ t, input = t ++ r := by
  unfold parse_limit_value at h
  cases ht : tag unlimitedLit input with
  | done r2 u =>
    rw [ht] at h
    cases h
    exact ⟨unlimitedLit, tag_done_eq ht⟩
  | error => rw [ht] at h; exact parse_isize_done_suffix h
  | incomplete => rw [ht] at h; cases h
  | panicked m => rw [ht] at h; cases h

theorem opt_word_done_inv {input r : List Char} {w : Option String}
    (h : opt parse_word input = .done r w) :
    (w = none ∧ r = input ∧ parse_word input = .error)
      ∨ (∃ a, w = some a ∧ parse_word input = .done r a) := by
  unfold opt at h
  cases hp : parse_word input with
  | done r2 a => rw [hp] at h; cases h; exact Or.inr ⟨a, rfl, rfl⟩
  | error => rw [hp] at h; cases h; exact Or.inl ⟨rfl, rfl, rfl⟩
  | incomplete => rw [hp] at h; cases h
  | panicked m => rw [hp] at h; cases h

theorem parse_limit_line_append {input r : List Char} {v : Int × Int × Option LimitUnit}
    (ex : List Char) (h : parse_limit_line input = .done r v) :
    parse_limit_line (input ++ ex) = .done (r ++ ex) v := by
  unfold parse_limit_line at h ⊢
  obtain ⟨r0, t0, h0, h⟩ := bind_done_inv h
  obtain ⟨r1, t1, h1, h⟩ := bind_done_inv h
  obtain ⟨r2, soft, h2, h⟩ := bind_done_inv h
  obtain ⟨r3, t3, h3, h⟩ := bind_done_inv h
  obtain ⟨r4, hard, h4, h⟩ := bind_done_inv h
  obtain ⟨r5, t5, h5, h⟩ := bind_done_inv h
  obtain ⟨r6, w, h6, h⟩ := bind_done_inv h
  obtain ⟨r7, t7, h7, h⟩ := bind_done_inv h
  obtain ⟨r8, u8, h8, h⟩ := bind_done_inv h
  cases h
  -- suffix decompositions give the nonemptiness of every intermediate rest
  have s1 := (takeWhile_done_inv h1).2.2
  obtain ⟨ts2, s2⟩ := parse_limit_value_done_suffix h2
  have s3 := (takeWhile_done_inv h3).2.2
  obtain ⟨ts4, s4⟩ := parse_limit_value_done_suffix h4
  have s5 := (takeWhile_done_inv h5).2.2
  have s7 := (takeWhile_done_inv h7).2.2
  have hr7 : r7 ≠ [] := lineEnding_done_ne_nil h8
  have hr6 : r6 ≠ [] := by
    intro hnil
    rw [hnil] at s7
    simp at s7
    exact hr7 s7.2
  have hr5 : r5 ≠ [] := by
    rcases opt_word_done_inv h6 with ⟨_, heq, _⟩ | ⟨a, _, hpw⟩
    · rw [← heq]; exact hr6
    · obtain ⟨e1, _, _⟩ := parse_word_done_eq hpw
      intro hnil
      rw [hnil] at e1
      simp at e1
      exact hr6 e1.2
  have hr4 : r4 ≠ [] := by
    intro hnil
    rw [hnil] at s5
    simp at s5
    exact hr5 s5.2
  have hr3 : r3 ≠ [] := by
    intro hnil
    rw [hnil] at s4
    simp at s4
    exact hr4 s4.2
  have hr2 : r2 ≠ [] := by
    intro hnil
    rw [hnil] at s3
    simp at s3
    exact hr3 s3.2
  have hr1 : r1 ≠ [] := by
    intro hnil
    rw [hnil] at s2
    simp at s2
    exact hr2 s2.2
  -- the stage results on the extended input
  have k0 := takeUntil_append ex h0
  have k1 := takeWhile_append ex h1 hr1
  have k2 := parse_limit_value_append ex h2 hr2
  have k3 := takeWhile_append ex h3 hr3
  have k4 := parse_limit_value_append ex h4 hr4
  have k5 := takeWhile_append ex h5 hr5
  have k6 : opt parse_word (r5 ++ ex) = .done (r6 ++ ex) w := by
    rcases opt_word_done_inv h6 with ⟨hw, heq, hpw⟩ | ⟨a, hw, hpw⟩
    · subst heq
      unfold opt
      rw [parse_word_error_append ex hpw hr5, hw]
    · unfold opt
      rw [parse_word_append ex hpw hr6, hw]
  have k7 := takeWhile_append ex h7 hr7
  have k8 := lineEnding_append ex h8
  rw [k0]
  simp only [PResult.bind]
  rw [k1]
  simp only [PResult.bind]
  rw [k2]
  simp only [PResult.bind]
  rw [k3]
  simp only [PResult.bind]
  rw [k4]
  simp only [PResult.bind]
  rw [k5]
  simp only [PResult.bind]
  rw [k6]
  simp only [PResult.bind]
  rw [k7]
  simp only [PResult.bind]
  rw [k8]

theorem mapExcept_done_inv {α β : Type} {x : PResult α} {f : α → Except String β}
    {r : List Char} {b : β} (h : x.mapExcept f = .done r b) :
    ∃ a, x = .done r a ∧ f a = .ok b := by
  cases x with
  | done r2 a =>
    simp only [PResult.mapExcept] at h
    cases hf : f a with
    | ok b2 => rw [hf] at h; cases h; exact ⟨a, rfl, hf⟩
    | error m => rw [hf] at h; cases h
  | error => cases h
  | incomplete => cases h
  | panicked m => cases h

theorem parse_row_limit_append {input r : List Char} {v : Limit} (ex : List Char)
    (h : parse_row_limit input = .done r v) :
    parse_row_limit (input ++ ex) = .done (r ++ ex) v := by
  unfold parse_row_limit at h ⊢
  obtain ⟨t, ht, hv⟩ := mapVal_done_inv h
  rw [parse_limit_line_append ex ht, hv]
  rfl

theorem parse_row_duration_append {input r : List Char} {v : LimitDuration} (ex : List Char)
    (h : parse_row_duration input = .done r v) :
    parse_row_duration (input ++ ex) = .done (r ++ ex) v := by
  unfold parse_row_duration at h ⊢
  obtain ⟨t, ht, hv⟩ := mapExcept_done_inv h
  rw [parse_limit_line_append ex ht]
  simp only [PResult.mapExcept, hv]

theorem takeUntilAndConsume_append {n input r t : List Char} (ex : List Char)
    (h : takeUntilAndConsume n input = .done r t) :
    takeUntilAndConsume n (input ++ ex) = .done (r ++ ex) t := by
  unfold takeUntilAndConsume at h ⊢
  obtain ⟨rU, tU, hU, h⟩ := bind_done_inv h
  obtain ⟨u, hu, hv⟩ := mapVal_done_inv h
  rw [takeUntil_append ex hU]
  simp only [PResult.bind]
  rw [tag_append ex hu, hv]
  rfl

theorem parse_limits_append {input r : List Char} {v : Limits} (ex : List Char)
    (h : parse_limits input = .done r v) :
    parse_limits (input ++ ex) = .done (r ++ ex) v := by
  unfold parse_limits at h ⊢
  obtain ⟨r0, t0, h0, h⟩ := bind_done_inv h
  obtain ⟨r1, f1, h1, h⟩ := bind_done_inv h
  obtain ⟨r2, f2, h2, h⟩ := bind_done_inv h
  obtain ⟨r3, f3, h3, h⟩ := bind_done_inv h
  obtain ⟨r4, f4, h4, h⟩ := bind_done_inv h
  obtain ⟨r5, f5, h5, h⟩ := bind_done_inv h
  obtain ⟨r6, f6, h6, h⟩ := bind_done_inv h
  obtain ⟨r7, f7, h7, h⟩ := bind_done_inv h
  obtain ⟨r8, f8, h8, h⟩ := bind_done_inv h
  obtain ⟨r9, f9, h9, h⟩ := bind_done_inv h
  obtain ⟨r10, f10, h10, h⟩ := bind_done_inv h
  obtain ⟨r11, f11, h11, h⟩ := bind_done_inv h
  obtain ⟨r12, f12, h12, h⟩ := bind_done_inv h
  obtain ⟨r13, f13, h13, h⟩ := bind_done_inv h
  obtain ⟨r14, f14, h14, h⟩ := bind_done_inv h
  obtain ⟨r15, f15, h15, h⟩ := bind_done_inv h
  obtain ⟨r16, f16, h16, h⟩ := bind_done_inv h
  cases h
  rw [takeUntilAndConsume_append ex h0]
  simp only [PResult.bind]
  rw [parse_row_duration_append ex h1]
  simp only [PResult.bind]
  rw [parse_row_limit_append ex h2]
  simp only [PResult.bind]
  rw [parse_row_limit_append ex h3]
  simp only [PResult.bind]
  rw [parse_row_limit_append ex h4]
  simp only [PResult.bind]
  rw [parse_row_limit_append ex h5]
  simp only [PResult.bind]
  rw [parse_row_limit_append ex h6]
  simp only [PResult.bind]
  rw [parse_row_limit_append ex h7]
  simp only [PResult.bind]
  rw [parse_row_limit_append ex h8]
  simp only [PResult.bind]
  rw [parse_row_limit_append ex h9]
  simp only [PResult.bind]
  rw [parse_row_limit_append ex h10]
  simp only [PResult.bind]
  rw [parse_row_limit_append ex h11]
  simp only [PResult.bind]
  rw [parse_row_limit_append ex h12]
  simp only [PResult.bind]
  rw [parse_row_limit_append ex h13]
  simp only [PResult.bind]
  rw [parse_row_limit_append ex h14]
  simp only [PResult.bind]
  rw [parse_row_limit_append ex h15]
  simp only [PResult.bind]
  rw [parse_row_duration_append ex h16]

/-! Spec-side refinement of the record assembler (for C2). -/

theorem bind_congr2 {α β : Type} {x : PResult α} {f g : List Char → α → PResult β}
    (h : ∀ r a, f r a = g r a) : x.bind f = x.bind g := by
  cases x <;> simp only [PResult.bind] <;> exact h _ _

theorem bind_assoc2 {α β γ : Type} (x : PResult α) (f : List Char → α → PResult β)
    (g : List Char → β → PResult γ) :
    (x.bind f).bind g = x.bind (fun r a => (f r a).bind g) := by
  cases x <;> rfl

theorem mapVal_bind {α β γ : Type} (x : PResult α) (f : α → β)
    (g : List Char → β → PResult γ) :
    (x.mapVal f).bind g = x.bind (fun r a => g r (f a)) := by
  cases x <;> rfl

theorem rowsSpec_cons {β : Type} (b : Bool) (bs : List Bool) (input : List Char)
    (k : List Char → List RowVal → PResult β) :
    (parseRowsSpec (b :: bs) input).bind k
      = (parseRow b input).bind
          (fun r v => (parseRowsSpec bs r).bind (fun r2 vs => k r2 (v :: vs))) := by
  show ((parseRow b input).bind fun r v => (parseRowsSpec bs r).mapVal (v :: ·)).bind k = _
  rw [bind_assoc2]
  apply bind_congr2
  intro r v
  rw [mapVal_bind]

theorem parseRow_true_bind {β : Type} (input : List Char)
    (k : List Char → RowVal → PResult β) :
    (parseRow true input).bind k
      = (parse_row_duration input).bind (fun r d => k r (RowVal.dur d)) := by
  unfold parseRow parse_row_duration
  rw [if_pos rfl]
  cases hp : parse_limit_line input with
  | done r t =>
    simp only [PResult.mapExcept]
    cases hd : to_limit_duration t with
    | ok d => simp only [Except.map, PResult.bind]
    | error m => simp only [Except.map, PResult.bind]
  | error => rfl
  | incomplete => rfl
  | panicked m => rfl

theorem parseRow_false_bind {β : Type} (input : List Char)
    (k : List Char → RowVal → PResult β) :
    (parseRow false input).bind k
      = (parse_row_limit input).bind (fun r l => k r (RowVal.plain l)) := by
  unfold parseRow parse_row_limit
  rw [if_neg (by simp)]
  rw [mapVal_bind, mapVal_bind]

theorem bind_done {α β : Type} (r : List Char) (v : α) (f : List Char → α → PResult β) :
    (PResult.done r v).bind f = f r v := rfl

theorem parse_limits_eq_spec (input : List Char) :
    parse_limits input = parse_limits_spec input := by
  unfold parse_limits parse_limits_spec
  cases h0 : takeUntilAndConsume newlineLit input with
  | done r0 t0 =>
    simp only [bind_done, durFlags]
    rw [rowsSpec_cons, parseRow_true_bind]
    apply bind_congr2; intro r1 v1
    rw [rowsSpec_cons, parseRow_false_bind]
    apply bind_congr2; intro r2 v2
    rw [rowsSpec_cons, parseRow_false_bind]
    apply bind_congr2; intro r3 v3
    rw [rowsSpec_cons, parseRow_false_bind]
    apply bind_congr2; intro r4 v4
    rw [rowsSpec_cons, parseRow_false_bind]
    apply bind_congr2; intro r5 v5
    rw [rowsSpec_cons, parseRow_false_bind]
    apply bind_congr2; intro r6 v6
    rw [rowsSpec_cons, parseRow_false_bind]
    apply bind_congr2; intro r7 v7
    rw [rowsSpec_cons, parseRow_false_bind]
    apply bind_congr2; intro r8 v8
    rw [rowsSpec_cons, parseRow_false_bind]
    apply bind_congr2; intro r9 v9
    rw [rowsSpec_cons, parseRow_false_bind]
    apply bind_congr2; intro r10 v10
    rw [rowsSpec_cons, parseRow_false_bind]
    apply bind_congr2; intro r11 v11
    rw [rowsSpec_cons, parseRow_false_bind]
    apply bind_congr2; intro r12 v12
    rw [rowsSpec_cons, parseRow_false_bind]
    apply bind_congr2; intro r13 v13
    rw [rowsSpec_cons, parseRow_false_bind]
    apply bind_congr2; intro r14 v14
    rw [rowsSpec_cons, parseRow_false_bind]
    apply bind_congr2; intro r15 v15
    rw [rowsSpec_cons, parseRow_true_bind]
    apply bind_congr2; intro r16 v16
    rfl
  | error => rfl
  | incomplete => rfl
  | panicked m => rfl

/-! Generated canonical-layout tables (for C8). -/

theorem digitChar_isDigit {n : Nat} (h : n < 10) : Char.isDigit (digitChar n) = true := by
  interval_cases n <;> decide

theorem digitChar_toNat {n : Nat} (h : n < 10) : (digitChar n).toNat = 48 + n := by
  interval_cases n <;> decide

theorem natDigits_ne_nil (n : Nat) : natDigits n ≠ [] := by
  unfold natDigits
  by_cases h : n < 10
  · rw [dif_pos h]; simp
  · rw [dif_neg h]; simp

theorem natDigits_all_digits (n : Nat) : ∀ c ∈ natDigits n, Char.isDigit c = true := by
  induction n using Nat.strong_induction_on with
  | _ n ih =>
    unfold natDigits
    by_cases h : n < 10
    · rw [dif_pos h]
      intro c hc
      simp at hc
      subst hc
      exact digitChar_isDigit h
    · rw [dif_neg h]
      intro c hc
      rw [List.mem_append] at hc
      rcases hc with hc | hc
      · exact ih (n / 10) (Nat.div_lt_self (by omega) (by omega)) c hc
      · simp at hc
        subst hc
        exact digitChar_isDigit (Nat.mod_lt n (by omega))

theorem digitsToNat_append_one (ds : List Char) (c : Char) :
    digitsToNat (ds ++ [c]) = 10 * digitsToNat ds + (c.toNat - 48) := by
  unfold digitsToNat
  rw [List.foldl_append]
  simp [Nat.mul_comm]

theorem digitsToNat_natDigits (n : Nat) : digitsToNat (natDigits n) = n := by
  induction n using Nat.strong_induction_on with
  | _ n ih =>
    unfold natDigits
    by_cases h : n < 10
    · rw [dif_pos h]
      show digitsToNat ([] ++ [digitChar n]) = n
      rw [digitsToNat_append_one]
      rw [digitChar_toNat h]
      simp [digitsToNat]
    · rw [dif_neg h]
      rw [digitsToNat_append_one, ih (n / 10) (Nat.div_lt_self (by omega) (by omega)),
        digitChar_toNat (Nat.mod_lt n (by omega))]
      omega

theorem isDigit_ne_special {c : Char} (h : Char.isDigit c = true) :
    c ≠ 'u' ∧ c ≠ '-' ∧ isSpace c = false ∧ Char.isDigit ' ' = false := by
  refine ⟨?_, ?_, ?_, by decide⟩
  · intro hc; rw [hc] at h; exact absurd h (by decide)
  · intro hc; rw [hc] at h; exact absurd h (by decide)
  · unfold isSpace
    by_cases h1 : c = ' '
    · rw [h1] at h; exact absurd h (by decide)
    · by_cases h2 : c = '\t'
      · rw [h2] at h; exact absurd h (by decide)
      · simp [h1, h2]

theorem wordChar_not_space {c : Char} (h : wordChar c = true) : isSpace c = false := by
  unfold wordChar at h
  unfold isSpace
  simp only [Bool.not_eq_eq_eq_not, Bool.not_true, Bool.or_eq_false_iff] at h
  simp [h.1.1.1, h.1.1.2]

theorem parse_limit_value_unlimited (rest : List Char) :
    parse_limit_value (unlimitedLit ++ rest) = .done rest LIMITS_INFINITY := by
  unfold parse_limit_value
  rw [tag_self_append]

theorem takeWhile_spaces_exact {t : List Char} {c : Char} (rest : List Char)
    (ht : ∀ x ∈ t, isSpace x = true) (hc : isSpace c = false) :
    takeWhile isSpace (t ++ c :: rest) = .done (c :: rest) t := by
  unfold takeWhile
  rw [span_exact rest ht hc]

theorem parse_limit_value_digits (n : Nat) {rest r2 : List Char} {c0 : Char}
    (hr : rest = c0 :: r2) (hc : Char.isDigit c0 = false)
    (hlen : 9 ≤ (natDigits n ++ rest).length) :
    parse_limit_value (natDigits n ++ rest) = .done rest ((n : Nat) : Int) := by
  obtain ⟨d, ds, hnd⟩ : ∃ d ds, natDigits n = d :: ds := by
    cases hx : natDigits n with
    | nil => exact absurd hx (natDigits_ne_nil n)
    | cons d ds => exact ⟨d, ds, rfl⟩
  have hd : Char.isDigit d = true := natDigits_all_digits n d (by rw [hnd]; simp)
  have h9 : unlimitedLit.length = 9 := by decide
  have htag : tag unlimitedLit (natDigits n ++ rest) = .error := by
    unfold tag
    rw [h9, if_neg (by omega)]
    have hpre : unlimitedLit.isPrefixOf (natDigits n ++ rest) = false := by
      rw [hnd, List.cons_append,
        show unlimitedLit = 'u' :: "nlimited".data from by decide]
      simp only [List.isPrefixOf, Bool.and_eq_false_iff]
      exact Or.inl (by
        have := (isDigit_ne_special hd).1
        simp only [beq_eq_false_iff_ne, ne_eq]
        exact fun hx => this hx.symm)
    rw [if_neg (by rw [hpre]; simp)]
  unfold parse_limit_value
  rw [htag, hnd, List.cons_append,
    parse_isize_not_dash _ (fun hx => ((isDigit_ne_special hd).2.1) hx)]
  have hspan : (span Char.isDigit ((d :: ds) ++ rest)).1 = d :: ds ∧
      (span Char.isDigit ((d :: ds) ++ rest)).2 = rest := by
    rw [hr, span_exact r2 (by rw [← hnd]; exact natDigits_all_digits n) hc]
    exact ⟨rfl, rfl⟩
  rw [show ((d :: ds) ++ rest) = d :: (ds ++ rest) from rfl] at hspan
  rw [parseDigits_of_span_cons hspan.1, hspan.2]
  have : digitsToNat (d :: ds) = n := by rw [← hnd, digitsToNat_natDigits]
  rw [this]
  rfl

theorem cellStr_head (v : Option Nat) :
    ∃ c cs, cellStr v = c :: cs ∧ isSpace c = false := by
  cases v with
  | none => exact ⟨'u', "nlimited".data, by decide, by decide⟩
  | some n =>
    obtain ⟨d, ds, hnd⟩ : ∃ d ds, natDigits n = d :: ds := by
      cases hx : natDigits n with
      | nil => exact absurd hx (natDigits_ne_nil n)
      | cons d ds => exact ⟨d, ds, rfl⟩
    have hd : Char.isDigit d = true := natDigits_all_digits n d (by rw [hnd]; simp)
    exact ⟨d, ds, hnd, (isDigit_ne_special hd).2.2.1⟩

theorem parse_limit_value_cell (v : Option Nat) {rest r2 : List Char}
    (hr : rest = ' ' :: r2) (hlen : 9 ≤ (cellStr v ++ rest).length) :
    parse_limit_value (cellStr v ++ rest) = .done rest (cellVal v) := by
  cases v with
  | none => exact parse_limit_value_unlimited rest
  | some n => exact parse_limit_value_digits n hr (by decide) hlen

theorem rowPadding_spaces : ∀ x ∈ rowPadding, isSpace x = true := by
  intro x hx
  rw [rowPadding, List.mem_replicate] at hx
  rw [hx.2]
  decide

theorem rowPadding_cons : rowPadding = ' ' :: List.replicate 9 ' ' := by decide

theorem parse_limit_line_mkRow (rs : RowSpec) (rest : List Char) (h : ValidRowSpec rs) :
    parse_limit_line (mkRow rs ++ rest) =
      .done rest (cellVal rs.soft, cellVal rs.hard,
        unit_types (if rs.unit = [] then none else some (String.mk rs.unit))) := by
  obtain ⟨hlabel, hunit⟩ := h
  have hds : doubleSpace = ' ' :: [' '] := by decide
  have hshape : mkRow rs ++ rest =
      rs.label ++ (' ' :: [' ']) ++ (cellStr rs.soft ++ ((' ' :: [' ']) ++ (cellStr rs.hard ++
        (unitPart rs.unit ++ (rowPadding ++ ('\n' :: rest)))))) := by
    simp [mkRow, hds, List.append_assoc]
  unfold parse_limit_line
  rw [hshape, hds, takeUntil_head_notin _ hlabel]
  rw [bind_done]
  -- stage 2: spaces then the soft cell
  obtain ⟨c1, cs1, hcell1, hsp1⟩ := cellStr_head rs.soft
  rw [show (' ' :: [' ']) ++ (cellStr rs.soft ++ ((' ' :: [' ']) ++ (cellStr rs.hard ++
        (unitPart rs.unit ++ (rowPadding ++ ('\n' :: rest)))))) =
      [' ', ' '] ++ (c1 :: (cs1 ++ ((' ' :: [' ']) ++ (cellStr rs.hard ++
        (unitPart rs.unit ++ (rowPadding ++ ('\n' :: rest))))))) from by rw [hcell1]; rfl]
  rw [takeWhile_spaces_exact _ (by decide) hsp1]
  rw [bind_done]
  -- stage 3: soft value
  rw [show c1 :: (cs1 ++ ((' ' :: [' ']) ++ (cellStr rs.hard ++
        (unitPart rs.unit ++ (rowPadding ++ ('\n' :: rest)))))) =
      cellStr rs.soft ++ ((' ' :: [' ']) ++ (cellStr rs.hard ++
        (unitPart rs.unit ++ (rowPadding ++ ('\n' :: rest))))) from by rw [hcell1]; rfl]
  rw [parse_limit_value_cell rs.soft (by rfl)
    (by simp [List.length_append, rowPadding]; omega)]
  rw [bind_done]
  -- stage 4: spaces then the hard cell
  obtain ⟨c2, cs2, hcell2, hsp2⟩ := cellStr_head rs.hard
  rw [show (' ' :: [' ']) ++ (cellStr rs.hard ++ (unitPart rs.unit ++ (rowPadding ++ ('\n' :: rest)))) =
      [' ', ' '] ++ (c2 :: (cs2 ++ (unitPart rs.unit ++ (rowPadding ++ ('\n' :: rest))))) from by
    rw [hcell2]; rfl]
  rw [takeWhile_spaces_exact _ (by decide) hsp2]
  rw [bind_done]
  -- stage 5: hard value
  rw [show c2 :: (cs2 ++ (unitPart rs.unit ++ (rowPadding ++ ('\n' :: rest)))) =
      cellStr rs.hard ++ (unitPart rs.unit ++ (rowPadding ++ ('\n' :: rest))) from by
    rw [hcell2]; rfl]
  have hT4 : unitPart rs.unit ++ (rowPadding ++ ('\n' :: rest)) =
      ' ' :: (unitPart rs.unit ++ (rowPadding ++ ('\n' :: rest))).tail := by
    by_cases hu : rs.unit = []
    · rw [unitPart, if_pos hu, List.nil_append, rowPadding_cons]
      rfl
    · rw [unitPart, if_neg hu, hds]
      rfl
  rw [parse_limit_value_cell rs.hard hT4
    (by
      by_cases hu : rs.unit = [] <;>
        simp [List.length_append, rowPadding, unitPart, hu, cellStr] <;> omega)]
  rw [bind_done]
  -- stages 6-9 split on the presence of a unit word
  by_cases hu : rs.unit = []
  · rw [unitPart, if_pos hu, List.nil_append]
    rw [takeWhile_spaces_exact _ rowPadding_spaces (by decide)]
    rw [bind_done]
    have hpw : parse_word ('\n' :: rest) = .error :=
      parse_word_of_span_nil (by rw [span_cons_false rest (by decide)])
    rw [show opt parse_word ('\n' :: rest) = .done ('\n' :: rest) none from by
      unfold opt; rw [hpw]]
    rw [bind_done]
    rw [show takeWhile isSpace ('\n' :: rest) = .done ('\n' :: rest) [] from by
      unfold takeWhile; rw [span_cons_false rest (by decide)]]
    rw [bind_done]
    rw [show lineEnding ('\n' :: rest) = .done rest () from by simp [lineEnding]]
    rw [bind_done, if_pos hu]
  · obtain ⟨u0, us, huc⟩ : ∃ u0 us, rs.unit = u0 :: us := by
      cases hx : rs.unit with
      | nil => exact absurd hx hu
      | cons u0 us => exact ⟨u0, us, rfl⟩
    have hw0 : wordChar u0 = true := hunit u0 (by rw [huc]; simp)
    rw [unitPart, if_neg hu, hds]
    rw [show (' ' :: [' ']) ++ rs.unit ++ (rowPadding ++ ('\n' :: rest)) =
        [' ', ' '] ++ (u0 :: (us ++ (rowPadding ++ ('\n' :: rest)))) from by
      rw [huc]; rfl]
    rw [takeWhile_spaces_exact _ (by decide) (wordChar_not_space hw0)]
    rw [bind_done]
    have hspan : span wordChar (rs.unit ++ (rowPadding ++ ('\n' :: rest))) =
        (rs.unit, rowPadding ++ ('\n' :: rest)) := by
      rw [show rs.unit ++ (rowPadding ++ ('\n' :: rest)) =
          rs.unit ++ ' ' :: (List.replicate 9 ' ' ++ ('\n' :: rest)) from by
        rw [rowPadding_cons]; rfl]
      rw [span_exact _ hunit (by decide), rowPadding_cons]
      rfl
    have hpw : parse_word (rs.unit ++ (rowPadding ++ ('\n' :: rest))) =
        .done (rowPadding ++ ('\n' :: rest)) (String.mk rs.unit) := by
      have h1 : (span wordChar (rs.unit ++ (rowPadding ++ ('\n' :: rest)))).1 = u0 :: us := by
        rw [hspan]; exact huc
      rw [parse_word_of_span_cons h1, hspan, ← huc]
    rw [show u0 :: (us ++ (rowPadding ++ ('\n' :: rest))) =
        rs.unit ++ (rowPadding ++ ('\n' :: rest)) from by rw [huc]; rfl]
    rw [show opt parse_word (rs.unit ++ (rowPadding ++ ('\n' :: rest))) =
        .done (rowPadding ++ ('\n' :: rest)) (some (String.mk rs.unit)) from by
      unfold opt; rw [hpw]]
    rw [bind_done]
    rw [takeWhile_spaces_exact _ rowPadding_spaces (by decide)]
    rw [bind_done]
    rw [show lineEnding ('\n' :: rest) = .done rest () from by simp [lineEnding]]
    rw [bind_done, if_neg hu]

theorem parse_row_limit_mkRow (rs : RowSpec) (rest : List Char) (h : ValidRowSpec rs) :
    parse_row_limit (mkRow rs ++ rest) = .done rest (limitOf rs) := by
  unfold parse_row_limit
  rw [parse_limit_line_mkRow rs rest h]
  rfl

theorem parse_row_duration_mkRow_seconds (rs : RowSpec) (rest : List Char)
    (h : ValidRowSpec rs) (hu : rs.unit = "seconds".data) :
    parse_row_duration (mkRow rs ++ rest) =
      .done rest ⟨Duration.seconds (cellVal rs.soft), Duration.seconds (cellVal rs.hard),
        some .Seconds⟩ := by
  unfold parse_row_duration
  rw [parse_limit_line_mkRow rs rest h, hu]
  have hu2 : unit_types (if ("seconds".data : List Char) = [] then none
      else some (String.mk "seconds".data)) = some .Seconds := by decide
  rw [hu2]
  rfl

theorem parse_row_duration_mkRow_us (rs : RowSpec) (rest : List Char)
    (h : ValidRowSpec rs) (hu : rs.unit = "us".data) :
    parse_row_duration (mkRow rs ++ rest) =
      .done rest ⟨Duration.microseconds (cellVal rs.soft),
        Duration.microseconds (cellVal rs.hard), some .Us⟩ := by
  unfold parse_row_duration
  rw [parse_limit_line_mkRow rs rest h, hu]
  have hu2 : unit_types (if ("us".data : List Char) = [] then none
      else some (String.mk "us".data)) = some .Us := by decide
  rw [hu2]
  rfl

theorem tuac_header {header : List Char} (body : List Char) (h : '\n' ∉ header) :
    takeUntilAndConsume newlineLit (header ++ newlineLit ++ body) = .done body header := by
  unfold takeUntilAndConsume
  have hn : newlineLit = '\n' :: [] := by decide
  rw [hn, takeUntil_head_notin body h, bind_done, tag_self_append]
  rfl

theorem parse_limits_mkTable
    (header : List Char)
    (r0 r1 r2 r3 r4 r5 r6 r7 r8 r9 r10 r11 r12 r13 r14 r15 : RowSpec)
    (rest : List Char)
    (hh : '\n' ∉ header)
    (h0 : ValidRowSpec r0) (h1 : ValidRowSpec r1) (h2 : ValidRowSpec r2)
    (h3 : ValidRowSpec r3) (h4 : ValidRowSpec r4) (h5 : ValidRowSpec r5)
    (h6 : ValidRowSpec r6) (h7 : ValidRowSpec r7) (h8 : ValidRowSpec r8)
    (h9 : ValidRowSpec r9) (h10 : ValidRowSpec r10) (h11 : ValidRowSpec r11)
    (h12 : ValidRowSpec r12) (h13 : ValidRowSpec r13) (h14 : ValidRowSpec r14)
    (h15 : ValidRowSpec r15)
    (hu0 : r0.unit = "seconds".data) (hu15 : r15.unit = "us".data) :
    parse_limits (header ++ newlineLit ++
        (mkRow r0 ++ (mkRow r1 ++ (mkRow r2 ++ (mkRow r3 ++ (mkRow r4 ++ (mkRow r5 ++
          (mkRow r6 ++ (mkRow r7 ++ (mkRow r8 ++ (mkRow r9 ++ (mkRow r10 ++ (mkRow r11 ++
            (mkRow r12 ++ (mkRow r13 ++ (mkRow r14 ++ (mkRow r15 ++ rest))))))))))))))))) =
      .done rest
        { max_cpu_time := ⟨Duration.seconds (cellVal r0.soft),
            Duration.seconds (cellVal r0.hard), some .Seconds⟩
          max_file_size := limitOf r1
          max_data_size := limitOf r2
          max_stack_size := limitOf r3
          max_core_file_size := limitOf r4
          max_resident_set := limitOf r5
          max_processes := limitOf r6
          max_open_files := limitOf r7
          max_locked_memory := limitOf r8
          max_address_space := limitOf r9
          max_file_locks := limitOf r10
          max_pending_signals := limitOf r11
          max_msgqueue_size := limitOf r12
          max_nice_priority := limitOf r13
          max_realtime_priority := limitOf r14
          max_realtime_timeout := ⟨Duration.microseconds (cellVal r15.soft),
            Duration.microseconds (cellVal r15.hard), some .Us⟩ } := by
  unfold parse_limits
  rw [tuac_header _ hh, bind_done,
    parse_row_duration_mkRow_seconds r0 _ h0 hu0, bind_done,
    parse_row_limit_mkRow r1 _ h1, bind_done,
    parse_row_limit_mkRow r2 _ h2, bind_done,
    parse_row_limit_mkRow r3 _ h3, bind_done,
    parse_row_limit_mkRow r4 _ h4, bind_done,
    parse_row_limit_mkRow r5 _ h5, bind_done,
    parse_row_limit_mkRow r6 _ h6, bind_done,
    parse_row_limit_mkRow r7 _ h7, bind_done,
    parse_row_limit_mkRow r8 _ h8, bind_done,
    parse_row_limit_mkRow r9 _ h9, bind_done,
    parse_row_limit_mkRow r10 _ h10, bind_done,
    parse_row_limit_mkRow r11 _ h11, bind_done,
    parse_row_limit_mkRow r12 _ h12, bind_done,
    parse_row_limit_mkRow r13 _ h13, bind_done,
    parse_row_limit_mkRow r14 _ h14, bind_done,
    parse_row_duration_mkRow_us r15 _ h15 hu15, bind_done]

/-! Claim theorems. -/

/-- C1 (code defect evidence): on a duration row whose unit is `bytes`, and on
a duration row with no unit at all, `parse_limits` aborts the process through
`panic!` instead of returning a parse error. -/

theorem C1_duration_unit_mismatch_panics :
    parse_limits badUnitSample =
      .panicked "LimitUnit Some(Bytes) is not of type Seconds or Us"
    ∧ parse_limits noUnitSample = .panicked "Limit unit is None" :=
  ⟨by decide, by decide⟩

/-- C3: the result adapter turns `Done` into success and both `Error` and
`Incomplete` ("need more input") into a parse error — never into a success or
a third outcome — and a table holding only 10 of the 16 rows makes the grammar
engine report `Incomplete`, which the external operation surfaces as an
error, never as a `Limits` record. -/

theorem C3_truncation_is_parse_error :
    (∀ (r : List Char) (v : Limits), map_result (PResult.done r v) = .ok v)
    ∧ map_result (PResult.error : PResult Limits) = .err
    ∧ map_result (PResult.incomplete : PResult Limits) = .err
    ∧ (∀ buf : List Char, parse_limits buf = .incomplete → limits_from_buffer buf = .err)
    ∧ parse_limits truncatedSample = .incomplete
    ∧ limits_from_buffer truncatedSample = .err := by
  refine ⟨fun r v => rfl, rfl, rfl, ?_, by decide, by decide⟩
  intro buf hbuf
  unfold limits_from_buffer
  rw [hbuf]
  rfl

/-- Witness for C3 at the concrete 10-row table. -/

theorem C3_truncation_is_parse_error_witness :
    limits_from_buffer truncatedSample = .err :=
  C3_truncation_is_parse_error.2.2.2.1 truncatedSample (by decide)

/-- C4: the limit-value parser maps the exact text `unlimited` (with anything
following) to the constant `-1`; a digit string `-1` yields the same value
with the same leftover, indistinguishable downstream; the match is
case-sensitive (`Unlimited` is not the sentinel and fails integer parsing);
other inputs go through the signed-integer parser. -/

theorem C4_unlimited_sentinel :
    (∀ rest : List Char,
        parse_limit_value (unlimitedLit ++ rest) = .done rest LIMITS_INFINITY)
    ∧ parse_limit_value ("unlimited    u\n".data) = .done ("    u\n".data) (-1)
    ∧ parse_limit_value ("-1           u\n".data) = .done ("           u\n".data) (-1)
    ∧ parse_limit_value ("Unlimited    u\n".data) = .error
    ∧ parse_limit_value ("12345     \n".data) = .done ("     \n".data) 12345 := by
  refine ⟨?_, by decide, by decide, by decide, by decide⟩
  intro rest
  unfold parse_limit_value
  rw [tag_self_append]

/-- C5: the unit classifier maps the seven recognized words to their variants,
maps every other word to `Other` carrying the original text verbatim (it never
fails and never drops the text), and maps an absent word to an absent unit. -/

theorem C5_unit_classifier_total_map :
    unit_types (some "bytes") = some .Bytes
    ∧ unit_types (some "files") = some .Files
    ∧ unit_types (some "locks") = some .Locks
    ∧ unit_types (some "processes") = some .Processes
    ∧ unit_types (some "seconds") = some .Seconds
    ∧ unit_types (some "signals") = some .Signals
    ∧ unit_types (some "us") = some .Us
    ∧ unit_types none = none
    ∧ (∀ s : String, s ≠ "bytes" → s ≠ "files" → s ≠ "locks" → s ≠ "processes" →
        s ≠ "seconds" → s ≠ "signals" → s ≠ "us" →
        unit_types (some s) = some (.Other s)) := by
  refine ⟨rfl, rfl, rfl, rfl, rfl, rfl, rfl, rfl, ?_⟩
  intro s h1 h2 h3 h4 h5 h6 h7
  simp [unit_types, h1, h2, h3, h4, h5, h6, h7]

/-- Witness for C5 at the unrecognized word `kb`. -/

theorem C5_unit_classifier_total_map_witness :
    unit_types (some "kb") = some (.Other "kb") :=
  C5_unit_classifier_total_map.2.2.2.2.2.2.2.2 "kb" (by decide) (by decide)
    (by decide) (by decide) (by decide) (by decide) (by decide)

/-- C6: for a `Seconds` unit the two integer values become second-denominated
durations and for `Us` microsecond-denominated ones; the conversion keeps the
sign of the value (negative in iff negative out, zero iff zero), so `-1`
becomes the duration equal to `-1` of that unit, not a special sentinel. -/

theorem C6_duration_conversion_preserves_sign :
    ∀ s h : Int,
      to_limit_duration (s, h, some .Seconds) =
        .ok ⟨Duration.seconds s, Duration.seconds h, some .Seconds⟩
      ∧ to_limit_duration (s, h, some .Us) =
        .ok ⟨Duration.microseconds s, Duration.microseconds h, some .Us⟩
      ∧ ((Duration.seconds s).nanos < 0 ↔ s < 0)
      ∧ ((Duration.microseconds s).nanos < 0 ↔ s < 0)
      ∧ ((Duration.seconds s).nanos = 0 ↔ s = 0)
      ∧ Duration.seconds (-1) = ⟨-1000000000⟩
      ∧ Duration.microseconds (-1) = ⟨-1000⟩ := by
  intro s h
  refine ⟨rfl, rfl, ?_, ?_, ?_, rfl, rfl⟩ <;> simp only [Duration.seconds, Duration.microseconds] <;> omega

/-- C7: the limit-line parser consumes a row in the strict token order of the
source: the row label (everything before the first double space) is discarded
and its content cannot influence the result; a well-formed row yields the
triple of soft value, hard value and optional classified unit; a row with no
unit word still succeeds with no unit; and a row missing the double space,
missing its line terminator, or carrying a malformed value fails. -/

theorem C7_limit_line_token_order :
    (∀ (l1 l2 rest : List Char), ' ' ∉ l1 → ' ' ∉ l2 →
        parse_limit_line (l1 ++ doubleSpace ++ rest) =
          parse_limit_line (l2 ++ doubleSpace ++ rest))
    ∧ parse_limit_line ("Max open files  1024                 4096                 files\n".data)
        = .done [] (1024, 4096, some .Files)
    ∧ parse_limit_line ("Max nice priority  0                    0                    \n".data)
        = .done [] (0, 0, none)
    ∧ parse_limit_line ("nodoublespace\n".data) = .incomplete
    ∧ parse_limit_line ("Label  12  34  bytes".data) = .incomplete
    ∧ parse_limit_line ("Label  abcdefghij  34  bytes\n".data) = .error := by
  refine ⟨?_, by decide, by decide, by decide, by decide, by decide⟩
  intro l1 l2 rest h1 h2
  unfold parse_limit_line
  have hd : doubleSpace = ' ' :: [' '] := by decide
  rw [hd, takeUntil_head_notin rest h1, takeUntil_head_notin rest h2]
  simp only [PResult.bind]

/-- Witness for C7: two different labels in front of the same row data give
the same parse. -/

theorem C7_limit_line_token_order_witness :
    parse_limit_line ("AB".data ++ doubleSpace ++ "12  34  bytes\n".data) =
      parse_limit_line ("XYZW".data ++ doubleSpace ++ "12  34  bytes\n".data) :=
  C7_limit_line_token_order.1 ("AB".data) ("XYZW".data) ("12  34  bytes\n".data)
    (by decide) (by decide)

/-- C9: whenever `parse_limits` succeeds on a buffer, any bytes appended after
that buffer are left in the unconsumed leftover and change neither the success
nor the content of the returned record. -/

theorem C9_leftover_bytes_unconsumed :
    ∀ (buf rest : List Char) (v : Limits) (ex : List Char),
      parse_limits buf = .done rest v →
      parse_limits (buf ++ ex) = .done (rest ++ ex) v :=
  fun _ _ _ ex h => parse_limits_append ex h

/-- Witness for C9: the canonical sample with trailing garbage still parses to
the canonical record, with the garbage left over. -/

theorem C9_leftover_bytes_unconsumed_witness :
    parse_limits (canonicalSample ++ "extra garbage\n".data) =
      .done ([] ++ "extra garbage\n".data) canonicalLimits :=
  C9_leftover_bytes_unconsumed canonicalSample [] canonicalLimits
    ("extra garbage\n".data) (by decide)

/-- C10: `to_limit` stores the parsed triple unchanged, with no check that the
unit fits the row's resource; concretely, a table whose stack-size row says
`seconds` and whose open-files row says `bytes` still parses successfully,
and those units are stored in the corresponding fields. -/

theorem C10_plain_rows_accept_any_unit :
    (∀ t : Int × Int × Option LimitUnit, to_limit t = ⟨t.1, t.2.1, t.2.2⟩)
    ∧ parse_limits mixedUnitSample = .done [] mixedUnitLimits
    ∧ mixedUnitLimits.max_open_files.unit = some .Bytes
    ∧ mixedUnitLimits.max_stack_size.unit = some .Seconds := by
  refine ⟨?_, by decide, by decide, by decide⟩
  rintro ⟨s, h, u⟩
  rfl

/-- C2: the record assembler equals, input for input, the spec-side assembler
that skips the header line and then applies the limit-line parser exactly 16
times in the fixed order of §3 (durations at positions 1 and 16), so the first
failing row fails the whole operation and no partial record is produced; the
header content is not validated (any two newline-free headers give identical
results); and a table whose second row is malformed is rejected. -/
theorem C2_assembler_structure :
    (∀ input : List Char, parse_limits input = parse_limits_spec input)
    ∧ durFlags.length = 16
    ∧ (∀ hd1 hd2 body : List Char, '\n' ∉ hd1 → '\n' ∉ hd2 →
        parse_limits (hd1 ++ newlineLit ++ body) = parse_limits (hd2 ++ newlineLit ++ body))
    ∧ parse_limits badRow2Sample = .error := by
  refine ⟨parse_limits_eq_spec, by decide, ?_, by decide⟩
  intro hd1 hd2 body hn1 hn2
  unfold parse_limits
  rw [tuac_header body hn1, tuac_header body hn2]
  simp only [bind_done]

/-- Witness for C2: two different header lines over the same body parse
identically. -/
theorem C2_assembler_structure_witness :
    parse_limits ("HeaderA".data ++ newlineLit ++ (rowCpuSeconds ++ tailRows).data) =
      parse_limits ("HeaderBBB".data ++ newlineLit ++ (rowCpuSeconds ++ tailRows).data) :=
  C2_assembler_structure.2.2.1 ("HeaderA".data) ("HeaderBBB".data)
    ((rowCpuSeconds ++ tailRows).data) (by decide) (by decide)

/-- C8: every valid 16-row table in the canonical layout (arbitrary space-free
labels, numeric or `unlimited` bounds, word units, the cpu-time row in
`seconds` and the realtime-timeout row in `us`) parses to the record with the
sixteen fields of §3 in order, the first and last as durations; and on the
canonical sample the singled-out field values hold. -/
theorem C8_valid_table_end_to_end :
    (∀ (header : List Char)
        (r0 r1 r2 r3 r4 r5 r6 r7 r8 r9 r10 r11 r12 r13 r14 r15 : RowSpec)
        (rest : List Char),
      '\n' ∉ header →
      ValidRowSpec r0 → ValidRowSpec r1 → ValidRowSpec r2 → ValidRowSpec r3 →
      ValidRowSpec r4 → ValidRowSpec r5 → ValidRowSpec r6 → ValidRowSpec r7 →
      ValidRowSpec r8 → ValidRowSpec r9 → ValidRowSpec r10 → ValidRowSpec r11 →
      ValidRowSpec r12 → ValidRowSpec r13 → ValidRowSpec r14 → ValidRowSpec r15 →
      r0.unit = "seconds".data → r15.unit = "us".data →
      parse_limits (header ++ newlineLit ++
          (mkRow r0 ++ (mkRow r1 ++ (mkRow r2 ++ (mkRow r3 ++ (mkRow r4 ++ (mkRow r5 ++
            (mkRow r6 ++ (mkRow r7 ++ (mkRow r8 ++ (mkRow r9 ++ (mkRow r10 ++ (mkRow r11 ++
              (mkRow r12 ++ (mkRow r13 ++ (mkRow r14 ++ (mkRow r15 ++ rest))))))))))))))))) =
        .done rest
          { max_cpu_time := ⟨Duration.seconds (cellVal r0.soft),
              Duration.seconds (cellVal r0.hard), some .Seconds⟩
            max_file_size := limitOf r1
            max_data_size := limitOf r2
            max_stack_size := limitOf r3
            max_core_file_size := limitOf r4
            max_resident_set := limitOf r5
            max_processes := limitOf r6
            max_open_files := limitOf r7
            max_locked_memory := limitOf r8
            max_address_space := limitOf r9
            max_file_locks := limitOf r10
            max_pending_signals := limitOf r11
            max_msgqueue_size := limitOf r12
            max_nice_priority := limitOf r13
            max_realtime_priority := limitOf r14
            max_realtime_timeout := ⟨Duration.microseconds (cellVal r15.soft),
              Duration.microseconds (cellVal r15.hard), some .Us⟩ })
    ∧ parse_limits canonicalSample = .done [] canonicalLimits
    ∧ canonicalLimits.max_cpu_time.soft_limit = Duration.seconds (-1)
    ∧ canonicalLimits.max_open_files.soft_limit = 1024
    ∧ canonicalLimits.max_open_files.hard_limit = 4096
    ∧ canonicalLimits.max_open_files.unit = some .Files
    ∧ canonicalLimits.max_nice_priority.unit = none
    ∧ canonicalLimits.max_realtime_timeout.soft_limit = Duration.microseconds (-1) :=
  ⟨parse_limits_mkTable, by decide, rfl, rfl, rfl, rfl, rfl, rfl⟩

/-- Witness for C8: a concrete generated table with `unlimited` and numeric
bounds parses to the expected record. -/
theorem C8_valid_table_end_to_end_witness :
    parse_limits ("WH".data ++ newlineLit ++
        (mkRow wr0 ++ (mkRow wrB ++ (mkRow wrB ++ (mkRow wrB ++ (mkRow wrB ++ (mkRow wrB ++
          (mkRow wrB ++ (mkRow wrB ++ (mkRow wrB ++ (mkRow wrB ++ (mkRow wrB ++ (mkRow wrB ++
            (mkRow wrB ++ (mkRow wrB ++ (mkRow wrB ++ (mkRow wr15 ++ []))))))))))))))))) =
      .done []
        { max_cpu_time := ⟨Duration.seconds (cellVal wr0.soft),
            Duration.seconds (cellVal wr0.hard), some .Seconds⟩
          max_file_size := limitOf wrB
          max_data_size := limitOf wrB
          max_stack_size := limitOf wrB
          max_core_file_size := limitOf wrB
          max_resident_set := limitOf wrB
          max_processes := limitOf wrB
          max_open_files := limitOf wrB
          max_locked_memory := limitOf wrB
          max_address_space := limitOf wrB
          max_file_locks := limitOf wrB
          max_pending_signals := limitOf wrB
          max_msgqueue_size := limitOf wrB
          max_nice_priority := limitOf wrB
          max_realtime_priority := limitOf wrB
          max_realtime_timeout := ⟨Duration.microseconds (cellVal wr15.soft),
            Duration.microseconds (cellVal wr15.hard), some .Us⟩ } :=
  C8_valid_table_end_to_end.1 ("WH".data) wr0 wrB wrB wrB wrB wrB wrB wrB wrB wrB wrB
    wrB wrB wrB wrB wr15 [] (by decide)
    ⟨by decide, by decide⟩ ⟨by decide, by decide⟩ ⟨by decide, by decide⟩
    ⟨by decide, by decide⟩ ⟨by decide, by decide⟩ ⟨by decide, by decide⟩
    ⟨by decide, by decide⟩ ⟨by decide, by decide⟩ ⟨by decide, by decide⟩
    ⟨by decide, by decide⟩ ⟨by decide, by decide⟩ ⟨by decide, by decide⟩
    ⟨by decide, by decide⟩ ⟨by decide, by decide⟩ ⟨by decide, by decide⟩
    ⟨by decide, by decide⟩ (by decide) (by decide)

/-- Witness for C4 at a concrete tail after the sentinel. -/
theorem C4_unlimited_sentinel_witness :
    parse_limit_value (unlimitedLit ++ " x\n".data) = .done (" x\n".data) LIMITS_INFINITY :=
  C4_unlimited_sentinel.1 (" x\n".data)

/-- Witness for C6 at the value `-1` on a seconds row. -/
theorem C6_duration_conversion_preserves_sign_witness :
    to_limit_duration (-1, -1, some .Seconds) =
      .ok ⟨Duration.seconds (-1), Duration.seconds (-1), some .Seconds⟩ :=
  (C6_duration_conversion_preserves_sign (-1) (-1)).1

/-- Witness for C10 at a concrete triple. -/
theorem C10_plain_rows_accept_any_unit_witness :
    to_limit (5, 7, some .Bytes) = ⟨5, 7, some .Bytes⟩ :=
  C10_plain_rows_accept_any_unit.1 (5, 7, some .Bytes)

end Procinfo

